import Mathlib

/-!
# Verification of `fix_timestamp.py` (vtt_time_shift)

Shallow embedding of the core of the WebVTT timestamp shifter:

* textual lines are `List Char` (Python strings);
* `timedelta` values are modelled by their exact signed millisecond count
  (`Int`); every duration arising in the verified code paths is an integer
  number of milliseconds, so `total_seconds() * 1000` followed by `round`
  is the identity and is modelled as such;
* the regular expression `TIME_RE` is compiled by hand into a
  deterministic matcher (`matchTimeRe`): each `\s*` in the pattern is
  followed by a character outside `\s` (a digit or a dash) and the two
  alternatives of the optional-hours group differ at a fixed offset
  (a colon versus a dot at index 5), so the backtracking engine has a
  unique viable path and maximal munch is exact;
* fallible Python code (raising `ValueError`) is modelled with `Except` /
  `Option`.

Character classes are the ASCII fragment of Python's `\s`, `\d` and
`int()`; the code points are written numerically (`c.toNat`) so that the
class-disjointness facts used by the matcher are plain arithmetic.
-/

/-- ASCII fragment of Python's whitespace class `\s`:
space (32), tab (9), LF (10), VT (11), FF (12), CR (13). -/
def isPySpace (c : Char) : Bool :=
  c.toNat = 32 || c.toNat = 9 || c.toNat = 10 || c.toNat = 11 ||
    c.toNat = 12 || c.toNat = 13

/-- ASCII decimal digit, the class `\d` (code points 48–57). -/
def isAsciiDigit (c : Char) : Bool := 48 ≤ c.toNat && c.toNat ≤ 57

/-- Numeric value of a decimal digit character. -/
def digitVal (c : Char) : Nat := c.toNat - 48

/-- Value of a decimal digit string (most significant digit first). -/
def digitsToNat (cs : List Char) : Nat :=
  cs.foldl (fun a c => a * 10 + digitVal c) 0

/-- Digit run of a Python integer literal after the optional sign:
decimal digits, where a single underscore (code 95) may stand between two
digits (Python `int` accepts `"1_0"` but rejects leading, trailing or
doubled underscores).  `acc` is the value of the digits already read. -/
def pyDigitsAux : List Char → Nat → Option Nat
  | [], acc => some acc
  | c :: cs, acc =>
    if isAsciiDigit c then pyDigitsAux cs (acc * 10 + digitVal c)
    else if c.toNat = 95 then
      match cs with
      | c2 :: cs2 =>
        if isAsciiDigit c2 then pyDigitsAux cs2 (acc * 10 + digitVal c2)
        else none
      | [] => none
    else none

/-- Digit part of a Python integer literal: at least one digit, then
`pyDigitsAux`. -/
def pyDigits : List Char → Option Nat
  | [] => none
  | c :: cs => if isAsciiDigit c then pyDigitsAux cs (digitVal c) else none

/-- Strip leading and trailing whitespace (Python `int` ignores
surrounding whitespace in its argument). -/
def stripWs (cs : List Char) : List Char :=
  ((cs.dropWhile isPySpace).reverse.dropWhile isPySpace).reverse

/-- Python `int(text)`: surrounding whitespace stripped, then an optional
sign `-` (45) or `+` (43), then a nonempty digit run.  Signed input is
accepted, so the result may be negative. -/
def pyInt (cs : List Char) : Option Int :=
  match stripWs cs with
  | [] => none
  | c :: rest =>
    if c.toNat = 45 then (pyDigits rest).map (fun n => -(n : Int))
    else if c.toNat = 43 then (pyDigits rest).map (fun n => (n : Int))
    else (pyDigits (c :: rest)).map (fun n => (n : Int))

/-- Python `str.split(sep)` for a one-character separator: splits at every
occurrence, keeping empty pieces; the result is always nonempty. -/
def pySplit (sep : Char) : List Char → List (List Char)
  | [] => [[]]
  | c :: cs =>
    if c = sep then [] :: pySplit sep cs
    else
      match pySplit sep cs with
      | [] => [[c]]
      | r :: rs => (c :: r) :: rs

/-- The character for a decimal digit value (`n` is taken mod 10 by the
callers; values `≥ 10` render as `9`, never produced). -/
def digitChar (n : Nat) : Char :=
  if n = 0 then '0' else if n = 1 then '1' else if n = 2 then '2'
  else if n = 3 then '3' else if n = 4 then '4' else if n = 5 then '5'
  else if n = 6 then '6' else if n = 7 then '7' else if n = 8 then '8'
  else '9'

/-- Decimal rendering of a natural number, fuel-structured so that it
reduces in the kernel; `natToStr` supplies sufficient fuel. -/
def natToStrAux (fuel : Nat) (n : Nat) : List Char :=
  match fuel with
  | 0 => []
  | fuel + 1 =>
    if n < 10 then [digitChar n]
    else natToStrAux fuel (n / 10) ++ [digitChar (n % 10)]

/-- Decimal rendering of a natural number (Python `"%d" % n` for `n ≥ 0`). -/
def natToStr (n : Nat) : List Char := natToStrAux (n + 1) n

/-- Left-pad with `'0'` to width `w` (Python format spec `0wd` on a
non-negative value): no truncation, more digits are kept as is. -/
def padZeros (w : Nat) (s : List Char) : List Char :=
  List.replicate (w - s.length) '0' ++ s

/-- `format_hhmmss_mmm` from the source: clamp a negative duration to
zero, decompose the total milliseconds, and render `HH:MM:SS.mmm` with
hours zero-padded to at least two digits (hours may exceed 23).
The source computes `int(round(td.total_seconds() * 1000))`; on the
integer-millisecond durations of this model that is the exact value. -/
def format_hhmmss_mmm (td : Int) : List Char :=
  let total_ms : Nat := (if td < 0 then 0 else td).toNat
  let ms := total_ms % 1000
  let total_seconds := total_ms / 1000
  let ss := total_seconds % 60
  let total_minutes := total_seconds / 60
  let mm := total_minutes % 60
  let hh := total_minutes / 60
  padZeros 2 (natToStr hh) ++ ':' :: padZeros 2 (natToStr mm) ++
    ':' :: padZeros 2 (natToStr ss) ++ '.' :: padZeros 3 (natToStr ms)

/-- The `ValueError` message raised by `parse_hhmmss_mmm`:
`Invalid time format '<s>'. Expected HH:MM:SS.mmm or MM:SS.mmm`
(code point 39 is the single-quote character around the offending text). -/
def parseErrMsg (s : List Char) : List Char :=
  ("Invalid time format ".toList) ++ [Char.ofNat 39] ++ s ++ [Char.ofNat 39] ++
    (". Expected HH:MM:SS.mmm or MM:SS.mmm".toList)

/-- `parse_hhmmss_mmm` from the source.  `s.split "."` must produce
exactly two pieces (the tuple unpacking `hms, ms = s.split(".")`),
the first piece must split on `:` into three or two fields, and every
field must be accepted by Python `int`; any failure inside the `try`
block becomes a `ValueError` carrying the offending text.  The result is
the signed millisecond count of
`timedelta(hours=hh, minutes=mm, seconds=ss, milliseconds=millis)`. -/
def parse_hhmmss_mmm (s : List Char) : Except (List Char) Int :=
  match pySplit '.' s with
  | [hms, ms] =>
    match pySplit ':' hms with
    | [h, m, sec] =>
      match pyInt h, pyInt m, pyInt sec, pyInt ms with
      | some hh, some mm, some ss, some millis =>
        .ok (((hh * 60 + mm) * 60 + ss) * 1000 + millis)
      | _, _, _, _ => .error (parseErrMsg s)
    | [m, sec] =>
      match pyInt m, pyInt sec, pyInt ms with
      | some mm, some ss, some millis =>
        .ok ((mm * 60 + ss) * 1000 + millis)
      | _, _, _ => .error (parseErrMsg s)
    | _ => .error (parseErrMsg s)
  | _ => .error (parseErrMsg s)

/-- The 12-character alternative `\d{2}:\d{2}:\d{2}\.\d{3}` of the
timestamp group of `TIME_RE` (the optional hours group present). -/
def isLongTs : List Char → Bool
  | [a, b, c1, c, d, c2, e, f, c3, g, h, i] =>
    isAsciiDigit a && isAsciiDigit b && (c1 == ':') && isAsciiDigit c &&
      isAsciiDigit d && (c2 == ':') && isAsciiDigit e && isAsciiDigit f &&
      (c3 == '.') && isAsciiDigit g && isAsciiDigit h && isAsciiDigit i
  | _ => false

/-- The 9-character alternative `\d{2}:\d{2}\.\d{3}` of the timestamp
group of `TIME_RE` (the optional hours group absent). -/
def isShortTs : List Char → Bool
  | [a, b, c1, c, d, c2, e, f, g] =>
    isAsciiDigit a && isAsciiDigit b && (c1 == ':') && isAsciiDigit c &&
      isAsciiDigit d && (c2 == '.') && isAsciiDigit e && isAsciiDigit f &&
      isAsciiDigit g
  | _ => false

/-- The timestamp group `(?:\d{2}:)?\d{2}:\d{2}\.\d{3}` matched at the
head of `cs`, returning the consumed capture and the remainder.  The
regex engine tries the optional hours group first; the two alternatives
disagree at index 5 (`:` versus `.`), so at most one of them can match
and no backtracking into the continuation is possible. -/
def matchTimestamp (cs : List Char) : Option (List Char × List Char) :=
  if isLongTs (cs.take 12) then some (cs.take 12, cs.drop 12)
  else if isShortTs (cs.take 9) then some (cs.take 9, cs.drop 9)
  else none

/-- The literal `-->` of `TIME_RE`: expects a dash, a dash and a
greater-than sign, returning the remainder. -/
def matchArrow : List Char → Option (List Char)
  | x :: y :: z :: r => if x = '-' ∧ y = '-' ∧ z = '>' then some r else none
  | _ => none

/-- The class of `.` in the pattern: any character except LF (10). -/
def isNotNl (c : Char) : Bool := c.toNat != 10

/-- `TIME_RE.match(line)` compiled to a deterministic matcher.  On
success it returns the four captures
(leading whitespace, `start`, `end`, `rest`).  The trailing
`(?P<rest>.*)$` takes the maximal LF-free run; `$` (no MULTILINE)
accepts only the end of the string or a single final LF, which then
stays outside every capture. -/
def matchTimeRe (line : List Char) :
    Option (List Char × List Char × List Char × List Char) :=
  match matchTimestamp (line.dropWhile isPySpace) with
  | none => none
  | some (ts1, r2) =>
    match matchArrow (r2.dropWhile isPySpace) with
    | none => none
    | some r4 =>
      match matchTimestamp (r4.dropWhile isPySpace) with
      | none => none
      | some (ts2, r6) =>
        if r6.dropWhile isNotNl = [] ∨ r6.dropWhile isNotNl = ['\n'] then
          some (line.takeWhile isPySpace, ts1, ts2, r6.takeWhile isNotNl)
        else none

/-- The clamp of lines 67–71 of the source: a negative shifted duration
is replaced by `timedelta(0)`. -/
def clampNonneg (d : Int) : Int := if d < 0 then 0 else d

/-- `shift_line` from the source.  A non-matching line is returned
unchanged.  On a match, the two captures are parsed, shifted, clamped at
zero and reformatted; an uncaught `ValueError` from parsing is modelled
as `none`.  The reconstruction uses single spaces around the arrow and
ends with an LF. -/
def shift_line (line : List Char) (shift : Int) : Option (List Char) :=
  match matchTimeRe line with
  | none => some line
  | some (ws, s, e, rest) =>
    match parse_hhmmss_mmm s, parse_hhmmss_mmm e with
    | .ok start_td, .ok end_td =>
      some (ws ++ format_hhmmss_mmm (clampNonneg (start_td + shift)) ++
        [' ', '-', '-', '>', ' '] ++
        format_hhmmss_mmm (clampNonneg (end_td + shift)) ++ rest ++ ['\n'])
    | _, _ => none

/-- A line as produced by `readlines()`: LF occurs at most as the final
character (Python text mode normalizes terminators to a single LF). -/
def lineWF (line : List Char) : Prop := '\n' ∉ line.dropLast

/-- Modelled from the spec wording of §4.2 Match: a timestamp is
`HH:MM:SS.mmm` or `MM:SS.mmm` — two-digit fields joined by colons and a
three-digit millisecond field after a dot. -/
def specTimestamp (cs : List Char) : Prop :=
  (∃ h1 h2 m1 m2 s1 s2 f1 f2 f3,
    ([h1, h2, m1, m2, s1, s2, f1, f2, f3].all isAsciiDigit) = true ∧
    cs = [h1, h2, ':', m1, m2, ':', s1, s2, '.', f1, f2, f3]) ∨
  (∃ m1 m2 s1 s2 f1 f2 f3,
    ([m1, m2, s1, s2, f1, f2, f3].all isAsciiDigit) = true ∧
    cs = [m1, m2, ':', s1, s2, '.', f1, f2, f3])

/-- Modelled from the spec wording of §4.2 Match: optional leading
whitespace, a timestamp, optional whitespace, the literal arrow,
optional whitespace, a second timestamp, then arbitrary remaining text
to the end of the line. -/
def timingLineDecomp (line : List Char) : Prop :=
  ∃ ws t1 w1 w2 t2 rest,
    line = ws ++ t1 ++ w1 ++ ['-', '-', '>'] ++ w2 ++ t2 ++ rest ∧
    (ws.all isPySpace) = true ∧ (w1.all isPySpace) = true ∧
    (w2.all isPySpace) = true ∧ specTimestamp t1 ∧ specTimestamp t2

/-- Modelled from the spec wording of §4.1 Parse (as amended): the
success condition of the Duration Codec parser — the dot-split yields
exactly two pieces, the time-of-day piece has three or two colon-fields,
and every field (milliseconds included) is accepted by Python `int`. -/
def parseOkSpec (s : List Char) : Prop :=
  ∃ hms ms, pySplit '.' s = [hms, ms] ∧ (pyInt ms).isSome = true ∧
    ((∃ a b c, pySplit ':' hms = [a, b, c] ∧ (pyInt a).isSome = true ∧
        (pyInt b).isSome = true ∧ (pyInt c).isSome = true) ∨
     (∃ a b, pySplit ':' hms = [a, b] ∧ (pyInt a).isSome = true ∧
        (pyInt b).isSome = true))

/-! ## Character class facts -/

theorem isAsciiDigit_toNat {c : Char} (h : isAsciiDigit c = true) :
    48 ≤ c.toNat ∧ c.toNat ≤ 57 := by
  simpa [isAsciiDigit] using h

theorem digit_not_pySpace {c : Char} (h : isAsciiDigit c = true) :
    isPySpace c = false := by
  have hb := isAsciiDigit_toNat h
  simp only [isPySpace]
  simp only [Bool.or_eq_false_iff, decide_eq_false_iff_not]
  omega

theorem digit_ne {c d : Char} (h : isAsciiDigit c = true)
    (hd : d.toNat < 48 ∨ 57 < d.toNat) : c ≠ d := by
  intro he
  subst he
  have hb := isAsciiDigit_toNat h
  omega

theorem digit_ne_colon {c : Char} (h : isAsciiDigit c = true) : c ≠ ':' :=
  digit_ne h (by decide)

theorem digit_ne_dot {c : Char} (h : isAsciiDigit c = true) : c ≠ '.' :=
  digit_ne h (by decide)

theorem digit_isNotNl {c : Char} (h : isAsciiDigit c = true) :
    isNotNl c = true := by
  have hb := isAsciiDigit_toNat h
  simp only [isNotNl, bne_iff_ne, ne_eq]
  omega

theorem not_dot_mem_of_digits {l : List Char} (h : l.all isAsciiDigit = true) :
    '.' ∉ l := by
  intro hm
  have := List.all_eq_true.mp h _ hm
  exact absurd this (by decide)

theorem not_colon_mem_of_digits {l : List Char} (h : l.all isAsciiDigit = true) :
    ':' ∉ l := by
  intro hm
  have := List.all_eq_true.mp h _ hm
  exact absurd this (by decide)

/-! ## Python `int` on plain digit strings -/

theorem pyDigitsAux_digits (cs : List Char) (hc : cs.all isAsciiDigit = true)
    (acc : Nat) :
    pyDigitsAux cs acc = some (cs.foldl (fun a c => a * 10 + digitVal c) acc) := by
  induction cs generalizing acc with
  | nil => rfl
  | cons c cs ih =>
    simp only [List.all_cons, Bool.and_eq_true] at hc
    rw [pyDigitsAux.eq_def]
    simp [hc.1, ih hc.2]

theorem pyDigits_digits {cs : List Char} (h0 : cs ≠ [])
    (h : cs.all isAsciiDigit = true) : pyDigits cs = some (digitsToNat cs) := by
  cases cs with
  | nil => exact absurd rfl h0
  | cons c cs =>
    simp only [List.all_cons, Bool.and_eq_true] at h
    simp [pyDigits, h.1, pyDigitsAux_digits cs h.2, digitsToNat]

theorem dropWhile_eq_self_of_not {p : Char → Bool} {cs : List Char}
    (h : ∀ c ∈ cs, p c = false) : cs.dropWhile p = cs := by
  cases cs with
  | nil => rfl
  | cons c cs => simp [List.dropWhile_cons, h c (List.mem_cons_self c cs)]

theorem stripWs_eq_self {cs : List Char}
    (h : ∀ c ∈ cs, isPySpace c = false) : stripWs cs = cs := by
  unfold stripWs
  rw [dropWhile_eq_self_of_not h,
    dropWhile_eq_self_of_not (fun c hc => h c (List.mem_reverse.mp hc)),
    List.reverse_reverse]

theorem pyInt_digits {cs : List Char} (h0 : cs ≠ [])
    (h : cs.all isAsciiDigit = true) :
    pyInt cs = some ((digitsToNat cs : Int)) := by
  have hstr : stripWs cs = cs :=
    stripWs_eq_self (fun c hc => digit_not_pySpace (List.all_eq_true.mp h _ hc))
  cases cs with
  | nil => exact absurd rfl h0
  | cons c cs =>
    have hc : isAsciiDigit c = true := by
      have := List.all_eq_true.mp h c (List.mem_cons_self c cs)
      simpa using this
    have hb := isAsciiDigit_toNat hc
    unfold pyInt
    rw [hstr]
    have h45 : ¬ c.toNat = 45 := by omega
    have h43 : ¬ c.toNat = 43 := by omega
    simp [h45, h43, pyDigits_digits h0 h]

/-! ## `str.split` on separator-free pieces -/

theorem pySplit_no_sep {sep : Char} {cs : List Char} (h : sep ∉ cs) :
    pySplit sep cs = [cs] := by
  induction cs with
  | nil => rfl
  | cons c cs ih =>
    simp only [List.mem_cons, not_or] at h
    have hne : ¬ c = sep := fun he => h.1 (he ▸ rfl)
    simp [pySplit, hne, ih h.2]

theorem pySplit_append {sep : Char} {l₁ l₂ : List Char} (h : sep ∉ l₁) :
    pySplit sep (l₁ ++ sep :: l₂) = l₁ :: pySplit sep l₂ := by
  induction l₁ with
  | nil => simp [pySplit]
  | cons c l₁ ih =>
    simp only [List.mem_cons, not_or] at h
    have hne : ¬ c = sep := fun he => h.1 (he ▸ rfl)
    rw [List.cons_append, pySplit.eq_def]
    simp [hne, ih h.2]

/-! ## Decimal rendering -/

theorem digitChar_isDigit (n : Nat) : isAsciiDigit (digitChar n) = true := by
  unfold digitChar
  repeat' split
  all_goals decide

theorem digitVal_digitChar : ∀ n, n < 10 → digitVal (digitChar n) = n := by
  decide

theorem digitsToNat_concat (l : List Char) (c : Char) :
    digitsToNat (l ++ [c]) = digitsToNat l * 10 + digitVal c := by
  simp [digitsToNat, List.foldl_append]

theorem natToStrAux_spec (fuel : Nat) : ∀ n : Nat, n < fuel →
    natToStrAux fuel n ≠ [] ∧ (natToStrAux fuel n).all isAsciiDigit = true ∧
    digitsToNat (natToStrAux fuel n) = n := by
  induction fuel with
  | zero => intro n h; omega
  | succ fuel ih =>
    intro n h
    by_cases h10 : n < 10
    · simp only [natToStrAux, if_pos h10]
      refine ⟨by simp, by simp [digitChar_isDigit], ?_⟩
      have : digitsToNat [digitChar n] = digitVal (digitChar n) := by
        simp [digitsToNat]
      rw [this, digitVal_digitChar n h10]
    · have hd : n / 10 < n := Nat.div_lt_self (by omega) (by omega)
      obtain ⟨hne, hall, hval⟩ := ih (n / 10) (by omega)
      simp only [natToStrAux, if_neg h10]
      refine ⟨by simp, ?_, ?_⟩
      · simp [List.all_append, hall, digitChar_isDigit]
      · rw [digitsToNat_concat, hval,
          digitVal_digitChar (n % 10) (Nat.mod_lt n (by omega))]
        omega

theorem natToStr_ne_nil (n : Nat) : natToStr n ≠ [] :=
  (natToStrAux_spec (n + 1) n (by omega)).1

theorem natToStr_all_digits (n : Nat) : (natToStr n).all isAsciiDigit = true :=
  (natToStrAux_spec (n + 1) n (by omega)).2.1

theorem digitsToNat_natToStr (n : Nat) : digitsToNat (natToStr n) = n :=
  (natToStrAux_spec (n + 1) n (by omega)).2.2

theorem padZeros_all_digits (w : Nat) {s : List Char}
    (h : s.all isAsciiDigit = true) : (padZeros w s).all isAsciiDigit = true := by
  unfold padZeros
  rw [List.all_append, h]
  have : (List.replicate (w - s.length) '0').all isAsciiDigit = true := by
    simp only [List.all_eq_true]
    intro c hc
    rw [(List.mem_replicate.mp hc).2]
    decide
  simp [this]

theorem digitsToNat_padZeros (w : Nat) (s : List Char) :
    digitsToNat (padZeros w s) = digitsToNat s := by
  unfold padZeros digitsToNat
  rw [List.foldl_append]
  have : ∀ k, List.foldl (fun a c => a * 10 + digitVal c) 0
      (List.replicate k '0') = 0 := by
    intro k
    induction k with
    | zero => rfl
    | succ k ihk =>
      rw [List.replicate_succ, List.foldl_cons]
      simpa using ihk
  rw [this]

theorem padZeros_ne_nil (w : Nat) {s : List Char} (h : s ≠ []) :
    padZeros w s ≠ [] := by
  simp [padZeros, h]

/-! ## Parsing well-formed timestamp strings succeeds -/

theorem not_mem_append2 {c : Char} {l₁ l₂ : List Char} (a : c ∉ l₁)
    (b : c ∉ l₂) : c ∉ l₁ ++ l₂ :=
  fun hm => (List.mem_append.mp hm).elim a b

theorem not_mem_cons2 {c d : Char} {l : List Char} (hne : c ≠ d)
    (hl : c ∉ l) : c ∉ d :: l :=
  fun hm => (List.mem_cons.mp hm).elim hne hl

theorem parse_eval3 {s hms ms : List Char} (hsp : pySplit '.' s = [hms, ms])
    {f1 f2 f3 : List Char} (hsp2 : pySplit ':' hms = [f1, f2, f3])
    {a b c d : Int} (ha : pyInt f1 = some a) (hb : pyInt f2 = some b)
    (hc : pyInt f3 = some c) (hd : pyInt ms = some d) :
    parse_hhmmss_mmm s = .ok (((a * 60 + b) * 60 + c) * 1000 + d) := by
  simp only [parse_hhmmss_mmm, hsp, hsp2, ha, hb, hc, hd]

theorem parse_eval2 {s hms ms : List Char} (hsp : pySplit '.' s = [hms, ms])
    {f2 f3 : List Char} (hsp2 : pySplit ':' hms = [f2, f3])
    {b c d : Int} (hb : pyInt f2 = some b) (hc : pyInt f3 = some c)
    (hd : pyInt ms = some d) :
    parse_hhmmss_mmm s = .ok ((b * 60 + c) * 1000 + d) := by
  simp only [parse_hhmmss_mmm, hsp, hsp2, hb, hc, hd]

theorem parse_three_fields (f1 f2 f3 fm : List Char)
    (h1 : f1 ≠ []) (h2 : f2 ≠ []) (h3 : f3 ≠ []) (hm : fm ≠ [])
    (d1 : f1.all isAsciiDigit = true) (d2 : f2.all isAsciiDigit = true)
    (d3 : f3.all isAsciiDigit = true) (dm : fm.all isAsciiDigit = true) :
    parse_hhmmss_mmm (f1 ++ ':' :: (f2 ++ ':' :: (f3 ++ '.' :: fm))) =
      .ok ((((digitsToNat f1 : Int) * 60 + (digitsToNat f2 : Int)) * 60 +
        (digitsToNat f3 : Int)) * 1000 + (digitsToNat fm : Int)) := by
  have hre : f1 ++ ':' :: (f2 ++ ':' :: (f3 ++ '.' :: fm)) =
      (f1 ++ ':' :: (f2 ++ ':' :: f3)) ++ '.' :: fm := by
    simp [List.append_assoc]
  have hdot1 : '.' ∉ f1 ++ ':' :: (f2 ++ ':' :: f3) :=
    not_mem_append2 (not_dot_mem_of_digits d1)
      (not_mem_cons2 (by decide)
        (not_mem_append2 (not_dot_mem_of_digits d2)
          (not_mem_cons2 (by decide) (not_dot_mem_of_digits d3))))
  have hsp1 : pySplit '.' (f1 ++ ':' :: (f2 ++ ':' :: (f3 ++ '.' :: fm))) =
      [f1 ++ ':' :: (f2 ++ ':' :: f3), fm] := by
    rw [hre, pySplit_append hdot1, pySplit_no_sep (not_dot_mem_of_digits dm)]
  have hsp2 : pySplit ':' (f1 ++ ':' :: (f2 ++ ':' :: f3)) = [f1, f2, f3] := by
    rw [pySplit_append (not_colon_mem_of_digits d1),
      pySplit_append (not_colon_mem_of_digits d2),
      pySplit_no_sep (not_colon_mem_of_digits d3)]
  exact parse_eval3 hsp1 hsp2 (pyInt_digits h1 d1) (pyInt_digits h2 d2)
    (pyInt_digits h3 d3) (pyInt_digits hm dm)

theorem parse_two_fields (f2 f3 fm : List Char)
    (h2 : f2 ≠ []) (h3 : f3 ≠ []) (hm : fm ≠ [])
    (d2 : f2.all isAsciiDigit = true) (d3 : f3.all isAsciiDigit = true)
    (dm : fm.all isAsciiDigit = true) :
    parse_hhmmss_mmm (f2 ++ ':' :: (f3 ++ '.' :: fm)) =
      .ok (((digitsToNat f2 : Int) * 60 + (digitsToNat f3 : Int)) * 1000 +
        (digitsToNat fm : Int)) := by
  have hre : f2 ++ ':' :: (f3 ++ '.' :: fm) = (f2 ++ ':' :: f3) ++ '.' :: fm := by
    simp [List.append_assoc]
  have hdot1 : '.' ∉ f2 ++ ':' :: f3 :=
    not_mem_append2 (not_dot_mem_of_digits d2)
      (not_mem_cons2 (by decide) (not_dot_mem_of_digits d3))
  have hsp1 : pySplit '.' (f2 ++ ':' :: (f3 ++ '.' :: fm)) =
      [f2 ++ ':' :: f3, fm] := by
    rw [hre, pySplit_append hdot1, pySplit_no_sep (not_dot_mem_of_digits dm)]
  have hsp2 : pySplit ':' (f2 ++ ':' :: f3) = [f2, f3] := by
    rw [pySplit_append (not_colon_mem_of_digits d2),
      pySplit_no_sep (not_colon_mem_of_digits d3)]
  exact parse_eval2 hsp1 hsp2 (pyInt_digits h2 d2) (pyInt_digits h3 d3)
    (pyInt_digits hm dm)

/-! ## Format and the round trip -/

theorem parse_fmt_nat (N : Nat) :
    parse_hhmmss_mmm (padZeros 2 (natToStr (N / 1000 / 60 / 60)) ++ ':' ::
      (padZeros 2 (natToStr (N / 1000 / 60 % 60)) ++ ':' ::
        (padZeros 2 (natToStr (N / 1000 % 60)) ++ '.' ::
          padZeros 3 (natToStr (N % 1000))))) = .ok (N : Int) := by
  rw [parse_three_fields _ _ _ _
    (padZeros_ne_nil _ (natToStr_ne_nil _)) (padZeros_ne_nil _ (natToStr_ne_nil _))
    (padZeros_ne_nil _ (natToStr_ne_nil _)) (padZeros_ne_nil _ (natToStr_ne_nil _))
    (padZeros_all_digits _ (natToStr_all_digits _))
    (padZeros_all_digits _ (natToStr_all_digits _))
    (padZeros_all_digits _ (natToStr_all_digits _))
    (padZeros_all_digits _ (natToStr_all_digits _))]
  rw [digitsToNat_padZeros, digitsToNat_padZeros, digitsToNat_padZeros,
    digitsToNat_padZeros, digitsToNat_natToStr, digitsToNat_natToStr,
    digitsToNat_natToStr, digitsToNat_natToStr]
  congr 1
  omega

theorem format_shape (d : Int) :
    format_hhmmss_mmm d =
      padZeros 2 (natToStr ((if d < 0 then 0 else d).toNat / 1000 / 60 / 60)) ++ ':' ::
        (padZeros 2 (natToStr ((if d < 0 then 0 else d).toNat / 1000 / 60 % 60)) ++ ':' ::
          (padZeros 2 (natToStr ((if d < 0 then 0 else d).toNat / 1000 % 60)) ++ '.' ::
            padZeros 3 (natToStr ((if d < 0 then 0 else d).toNat % 1000)))) := by
  simp [format_hhmmss_mmm, List.append_assoc]

theorem parse_format (d : Int) :
    parse_hhmmss_mmm (format_hhmmss_mmm d) = .ok (clampNonneg d) := by
  rw [format_shape, parse_fmt_nat]
  congr 1
  unfold clampNonneg
  split <;> omega

theorem format_clamp (d : Int) :
    format_hhmmss_mmm (clampNonneg d) = format_hhmmss_mmm d := by
  have h : (if clampNonneg d < 0 then (0 : Int) else clampNonneg d) =
      if d < 0 then 0 else d := by
    unfold clampNonneg
    split <;> simp
  simp only [format_hhmmss_mmm]
  rw [h]

/-! ## Characters and the newline class -/

theorem char_eq_of_toNat {c d : Char} (h : c.toNat = d.toNat) : c = d :=
  Char.ext (UInt32.ext h)

theorem isNotNl_iff {c : Char} : isNotNl c = true ↔ c ≠ '\n' := by
  constructor
  · intro h he
    subst he
    exact absurd h (by decide)
  · intro h
    simp only [isNotNl, bne_iff_ne, ne_eq]
    intro h10
    exact h (char_eq_of_toNat h10)

theorem nl_of_not_isNotNl {c : Char} (h : isNotNl c = false) : c = '\n' := by
  by_contra hne
  have h2 : isNotNl c = true := isNotNl_iff.mpr hne
  simp [h] at h2

/-! ## The two timestamp alternatives -/

theorem isLongTs_intro {a b c d e f g h i : Char}
    (ha : isAsciiDigit a = true) (hb : isAsciiDigit b = true)
    (hc : isAsciiDigit c = true) (hd : isAsciiDigit d = true)
    (he : isAsciiDigit e = true) (hf : isAsciiDigit f = true)
    (hg : isAsciiDigit g = true) (hh : isAsciiDigit h = true)
    (hi : isAsciiDigit i = true) :
    isLongTs [a, b, ':', c, d, ':', e, f, '.', g, h, i] = true := by
  simp [isLongTs, ha, hb, hc, hd, he, hf, hg, hh, hi]

theorem isShortTs_intro {a b c d e f g : Char}
    (ha : isAsciiDigit a = true) (hb : isAsciiDigit b = true)
    (hc : isAsciiDigit c = true) (hd : isAsciiDigit d = true)
    (he : isAsciiDigit e = true) (hf : isAsciiDigit f = true)
    (hg : isAsciiDigit g = true) :
    isShortTs [a, b, ':', c, d, '.', e, f, g] = true := by
  simp [isShortTs, ha, hb, hc, hd, he, hf, hg]

theorem isLongTs_elim {t : List Char} (ht : isLongTs t = true) :
    ∃ a b c d e f g h i, isAsciiDigit a = true ∧ isAsciiDigit b = true ∧
      isAsciiDigit c = true ∧ isAsciiDigit d = true ∧ isAsciiDigit e = true ∧
      isAsciiDigit f = true ∧ isAsciiDigit g = true ∧ isAsciiDigit h = true ∧
      isAsciiDigit i = true ∧ t = [a, b, ':', c, d, ':', e, f, '.', g, h, i] := by
  rcases t with _ | ⟨a, _ | ⟨b, _ | ⟨c1, _ | ⟨c, _ | ⟨d, _ | ⟨c2, _ | ⟨e, _ |
    ⟨f, _ | ⟨c3, _ | ⟨g, _ | ⟨h, _ | ⟨i, _ | ⟨j, t⟩⟩⟩⟩⟩⟩⟩⟩⟩⟩⟩⟩⟩
  all_goals try exact Bool.noConfusion ht
  simp only [isLongTs, Bool.and_eq_true, beq_iff_eq, and_assoc] at ht
  obtain ⟨ha, hb, hc1, hc, hd, hc2, he, hf, hc3, hg, hh, hi⟩ := ht
  subst hc1
  subst hc2
  subst hc3
  exact ⟨a, b, c, d, e, f, g, h, i, ha, hb, hc, hd, he, hf, hg, hh, hi, rfl⟩

theorem isShortTs_elim {t : List Char} (ht : isShortTs t = true) :
    ∃ a b c d e f g, isAsciiDigit a = true ∧ isAsciiDigit b = true ∧
      isAsciiDigit c = true ∧ isAsciiDigit d = true ∧ isAsciiDigit e = true ∧
      isAsciiDigit f = true ∧ isAsciiDigit g = true ∧
      t = [a, b, ':', c, d, '.', e, f, g] := by
  rcases t with _ | ⟨a, _ | ⟨b, _ | ⟨c1, _ | ⟨c, _ | ⟨d, _ | ⟨c2, _ | ⟨e, _ |
    ⟨f, _ | ⟨g, _ | ⟨j, t⟩⟩⟩⟩⟩⟩⟩⟩⟩⟩
  all_goals try exact Bool.noConfusion ht
  simp only [isShortTs, Bool.and_eq_true, beq_iff_eq, and_assoc] at ht
  obtain ⟨ha, hb, hc1, hc, hd, hc2, he, hf, hg⟩ := ht
  subst hc1
  subst hc2
  exact ⟨a, b, c, d, e, f, g, ha, hb, hc, hd, he, hf, hg, rfl⟩

theorem isLongTs_length {t : List Char} (ht : isLongTs t = true) :
    t.length = 12 := by
  obtain ⟨a, b, c, d, e, f, g, h, i, -, -, -, -, -, -, -, -, -, hsh⟩ :=
    isLongTs_elim ht
  rw [hsh]
  rfl

theorem isShortTs_length {t : List Char} (ht : isShortTs t = true) :
    t.length = 9 := by
  obtain ⟨a, b, c, d, e, f, g, -, -, -, -, -, -, -, hsh⟩ := isShortTs_elim ht
  rw [hsh]
  rfl

theorem isLongTs_dot5 (a b x c d : Char) (l : List Char) :
    isLongTs (a :: b :: x :: c :: d :: '.' :: l) = false := by
  rcases l with _ | ⟨p1, _ | ⟨p2, _ | ⟨p3, _ | ⟨p4, _ | ⟨p5, _ | ⟨p6, l⟩⟩⟩⟩⟩⟩
  all_goals try rfl
  rcases l with _ | ⟨p7, l⟩
  · simp [isLongTs, show (('.' : Char) == ':') = false from rfl]
  · rfl

/-! ## The timestamp group matcher -/

theorem matchTimestamp_long {t r : List Char} (ht : isLongTs t = true) :
    matchTimestamp (t ++ r) = some (t, r) := by
  have hlen : t.length = 12 := isLongTs_length ht
  have h1 : (t ++ r).take 12 = t := by
    rw [← hlen]
    exact List.take_left t r
  have h2 : (t ++ r).drop 12 = r := by
    rw [← hlen]
    exact List.drop_left t r
  unfold matchTimestamp
  rw [h1, h2, if_pos ht]

theorem matchTimestamp_short {t r : List Char} (ht : isShortTs t = true) :
    matchTimestamp (t ++ r) = some (t, r) := by
  have hlen : t.length = 9 := isShortTs_length ht
  have h9 : (t ++ r).take 9 = t := by
    rw [← hlen]
    exact List.take_left t r
  have h9d : (t ++ r).drop 9 = r := by
    rw [← hlen]
    exact List.drop_left t r
  have hlong : isLongTs ((t ++ r).take 12) = false := by
    obtain ⟨a, b, c, d, e, f, g, -, -, -, -, -, -, -, hsh⟩ := isShortTs_elim ht
    have ht12 : t.take 12 = t := List.take_of_length_le (by rw [hlen]; omega)
    rw [List.take_append_eq_append_take, ht12, hsh]
    simpa using isLongTs_dot5 a b ':' c d (e :: f :: g :: r.take 3)
  unfold matchTimestamp
  rw [hlong, h9, h9d, if_pos ht]
  simp

theorem matchTimestamp_eq {cs t r : List Char}
    (h : matchTimestamp cs = some (t, r)) :
    cs = t ++ r ∧ (isLongTs t = true ∨ isShortTs t = true) := by
  unfold matchTimestamp at h
  split at h
  · rename_i hcond
    simp only [Option.some.injEq, Prod.mk.injEq] at h
    obtain ⟨h1, h2⟩ := h
    subst h1
    subst h2
    exact ⟨(List.take_append_drop 12 cs).symm, Or.inl hcond⟩
  · split at h
    · rename_i hcond
      simp only [Option.some.injEq, Prod.mk.injEq] at h
      obtain ⟨h1, h2⟩ := h
      subst h1
      subst h2
      exact ⟨(List.take_append_drop 9 cs).symm, Or.inr hcond⟩
    · exact absurd h (by simp)

/-! ## Maximal munch for whitespace runs -/

theorem takeWhile_sat_append {p : Char → Bool} {l₁ : List Char}
    (h : ∀ c ∈ l₁, p c = true) (l₂ : List Char) :
    (l₁ ++ l₂).takeWhile p = l₁ ++ l₂.takeWhile p := by
  induction l₁ with
  | nil => rfl
  | cons c l₁ ih =>
    rw [List.cons_append, List.takeWhile_cons_of_pos (h c (List.mem_cons_self c l₁)),
      ih (fun x hx => h x (List.mem_cons_of_mem c hx)), List.cons_append]

theorem dropWhile_sat_append {p : Char → Bool} {l₁ : List Char}
    (h : ∀ c ∈ l₁, p c = true) (l₂ : List Char) :
    (l₁ ++ l₂).dropWhile p = l₂.dropWhile p := by
  induction l₁ with
  | nil => rfl
  | cons c l₁ ih =>
    rw [List.cons_append, List.dropWhile_cons_of_pos (h c (List.mem_cons_self c l₁)),
      ih (fun x hx => h x (List.mem_cons_of_mem c hx))]

theorem takeWhile_head_neg {p : Char → Bool} {c : Char} (l : List Char)
    (h : p c = false) : (c :: l).takeWhile p = [] :=
  List.takeWhile_cons_of_neg (by simp [h])

theorem dropWhile_head_neg {p : Char → Bool} {c : Char} (l : List Char)
    (h : p c = false) : (c :: l).dropWhile p = c :: l :=
  List.dropWhile_cons_of_neg (by simp [h])

/-! ## Lines and the trailing newline -/

theorem lineWF_cons {c : Char} {l : List Char} (h : lineWF (c :: l)) :
    lineWF l := by
  cases l with
  | nil => simp [lineWF]
  | cons d l2 =>
    unfold lineWF at h ⊢
    rw [List.dropLast_cons₂] at h
    intro hm
    exact h (List.mem_cons_of_mem c hm)

theorem lineWF_append_right {l₁ l₂ : List Char} (h : lineWF (l₁ ++ l₂)) :
    lineWF l₂ := by
  induction l₁ with
  | nil => exact h
  | cons c l₁ ih => exact ih (lineWF_cons (by rwa [List.cons_append] at h))

theorem nl_run_of_lineWF {l : List Char} (h : lineWF l) :
    l.dropWhile isNotNl = [] ∨ l.dropWhile isNotNl = ['\n'] := by
  induction l with
  | nil => exact Or.inl rfl
  | cons c l ih =>
    by_cases hc : isNotNl c = true
    · rw [List.dropWhile_cons_of_pos hc]
      exact ih (lineWF_cons h)
    · have hc' : isNotNl c = false := by simpa using hc
      have hnl : c = '\n' := nl_of_not_isNotNl hc'
      subst hnl
      rw [dropWhile_head_neg l hc']
      cases l with
      | nil => exact Or.inr rfl
      | cons d l2 =>
        exfalso
        unfold lineWF at h
        rw [List.dropLast_cons₂] at h
        exact h (List.mem_cons_self _ _)

theorem nl_not_mem_takeWhile (l : List Char) :
    '\n' ∉ l.takeWhile isNotNl := by
  intro hm
  have := List.mem_takeWhile_imp hm
  exact absurd this (by decide)

/-! ## The arrow literal -/

theorem matchArrow_eq {l r : List Char} (h : matchArrow l = some r) :
    l = '-' :: '-' :: '>' :: r := by
  rcases l with _ | ⟨x, _ | ⟨y, _ | ⟨z, l⟩⟩⟩
  · exact Option.noConfusion h
  · exact Option.noConfusion h
  · exact Option.noConfusion h
  · simp only [matchArrow] at h
    by_cases hc : x = '-' ∧ y = '-' ∧ z = '>'
    · rw [if_pos hc] at h
      obtain ⟨h1, h2, h3⟩ := hc
      subst h1
      subst h2
      subst h3
      simp only [Option.some.injEq] at h
      rw [h]
    · rw [if_neg hc] at h
      exact Option.noConfusion h

theorem matchArrow_arrow (r : List Char) :
    matchArrow ('-' :: '-' :: '>' :: r) = some r := rfl

/-! ## Decomposition of a successful `TIME_RE` match -/

theorem matchTimeRe_decomp {line ws s e rest : List Char}
    (h : matchTimeRe line = some (ws, s, e, rest)) :
    ∃ w1 w2 tail,
      line = ws ++ (s ++ (w1 ++ ('-' :: '-' :: '>' ::
        (w2 ++ (e ++ (rest ++ tail)))))) ∧
      (∀ c ∈ ws, isPySpace c = true) ∧ (∀ c ∈ w1, isPySpace c = true) ∧
      (∀ c ∈ w2, isPySpace c = true) ∧
      (isLongTs s = true ∨ isShortTs s = true) ∧
      (isLongTs e = true ∨ isShortTs e = true) ∧
      (tail = [] ∨ tail = ['\n']) ∧ '\n' ∉ rest := by
  rcases hm1 : matchTimestamp (line.dropWhile isPySpace) with _ | ⟨ts1, r2⟩
  · simp [matchTimeRe, hm1] at h
  rcases hm2 : matchArrow (r2.dropWhile isPySpace) with _ | r4
  · simp [matchTimeRe, hm1, hm2] at h
  rcases hm3 : matchTimestamp (r4.dropWhile isPySpace) with _ | ⟨ts2, r6⟩
  · simp [matchTimeRe, hm1, hm2, hm3] at h
  simp only [matchTimeRe, hm1, hm2, hm3] at h
  split at h
  · rename_i hguard
    simp only [Option.some.injEq, Prod.mk.injEq] at h
    obtain ⟨hws, hs, he, hrest⟩ := h
    obtain ⟨hsplit1, hts1⟩ := matchTimestamp_eq hm1
    have harrow := matchArrow_eq hm2
    obtain ⟨hsplit3, hts2⟩ := matchTimestamp_eq hm3
    refine ⟨r2.takeWhile isPySpace, r4.takeWhile isPySpace,
      r6.dropWhile isNotNl, ?_, ?_, ?_, ?_, ?_, ?_, ?_, ?_⟩
    · have E2 : r2 = r2.takeWhile isPySpace ++ ('-' :: '-' :: '>' :: r4) := by
        rw [← harrow]
        exact (List.takeWhile_append_dropWhile _ _).symm
      have E3 : r4 = r4.takeWhile isPySpace ++ (ts2 ++ r6) := by
        rw [← hsplit3]
        exact (List.takeWhile_append_dropWhile _ _).symm
      have E4 : r6 = rest ++ r6.dropWhile isNotNl := by
        rw [← hrest]
        exact (List.takeWhile_append_dropWhile _ _).symm
      calc line = line.takeWhile isPySpace ++ line.dropWhile isPySpace :=
            (List.takeWhile_append_dropWhile _ _).symm
        _ = ws ++ line.dropWhile isPySpace := by rw [hws]
        _ = ws ++ (s ++ r2) := by rw [hsplit1, hs]
        _ = ws ++ (s ++ (r2.takeWhile isPySpace ++ ('-' :: '-' :: '>' :: r4)))
            := by rw [← E2]
        _ = ws ++ (s ++ (r2.takeWhile isPySpace ++ ('-' :: '-' :: '>' ::
            (r4.takeWhile isPySpace ++ (e ++ r6))))) := by
              conv_lhs => rw [E3]
              rw [he]
        _ = ws ++ (s ++ (r2.takeWhile isPySpace ++ ('-' :: '-' :: '>' ::
            (r4.takeWhile isPySpace ++ (e ++ (rest ++ r6.dropWhile isNotNl))))))
            := by
              conv_lhs => rw [E4]
    · intro c hc
      rw [← hws] at hc
      exact List.mem_takeWhile_imp hc
    · intro c hc
      exact List.mem_takeWhile_imp hc
    · intro c hc
      exact List.mem_takeWhile_imp hc
    · rw [← hs]
      exact hts1
    · rw [← he]
      exact hts2
    · exact hguard
    · rw [← hrest]
      exact nl_not_mem_takeWhile r6
  · exact Option.noConfusion h

theorem ts_head_digit {t : List Char}
    (ht : isLongTs t = true ∨ isShortTs t = true) :
    ∃ a t2, t = a :: t2 ∧ isAsciiDigit a = true := by
  rcases ht with h | h
  · obtain ⟨a, b, c, d, e, f, g, h1, i1, ha, -, -, -, -, -, -, -, -, hsh⟩ :=
      isLongTs_elim h
    exact ⟨a, _, hsh, ha⟩
  · obtain ⟨a, b, c, d, e, f, g, ha, -, -, -, -, -, -, hsh⟩ := isShortTs_elim h
    exact ⟨a, _, hsh, ha⟩

theorem matchTimestamp_here {t r : List Char}
    (ht : isLongTs t = true ∨ isShortTs t = true) :
    matchTimestamp (t ++ r) = some (t, r) := by
  rcases ht with h | h
  · exact matchTimestamp_long h
  · exact matchTimestamp_short h

theorem matchTimeRe_of_decomp {ws t1 w1 w2 t2 rest : List Char}
    (hws : ∀ c ∈ ws, isPySpace c = true) (hw1 : ∀ c ∈ w1, isPySpace c = true)
    (hw2 : ∀ c ∈ w2, isPySpace c = true)
    (ht1 : isLongTs t1 = true ∨ isShortTs t1 = true)
    (ht2 : isLongTs t2 = true ∨ isShortTs t2 = true)
    (hWF : lineWF (ws ++ (t1 ++ (w1 ++ ('-' :: '-' :: '>' ::
      (w2 ++ (t2 ++ rest))))))) :
    matchTimeRe (ws ++ (t1 ++ (w1 ++ ('-' :: '-' :: '>' ::
      (w2 ++ (t2 ++ rest)))))) = some (ws, t1, t2, rest.takeWhile isNotNl) := by
  obtain ⟨a1, t1t, hsh1, hd1⟩ := ts_head_digit ht1
  obtain ⟨a2, t2t, hsh2, hd2⟩ := ts_head_digit ht2
  have htw : (ws ++ (t1 ++ (w1 ++ ('-' :: '-' :: '>' ::
      (w2 ++ (t2 ++ rest)))))).takeWhile isPySpace = ws := by
    rw [takeWhile_sat_append hws, hsh1, List.cons_append,
      takeWhile_head_neg _ (digit_not_pySpace hd1), List.append_nil]
  have hdw : (ws ++ (t1 ++ (w1 ++ ('-' :: '-' :: '>' ::
      (w2 ++ (t2 ++ rest)))))).dropWhile isPySpace =
      t1 ++ (w1 ++ ('-' :: '-' :: '>' :: (w2 ++ (t2 ++ rest)))) := by
    rw [dropWhile_sat_append hws, hsh1, List.cons_append,
      dropWhile_head_neg _ (digit_not_pySpace hd1), ← List.cons_append, ← hsh1]
  have hm1 : matchTimestamp (t1 ++ (w1 ++ ('-' :: '-' :: '>' ::
      (w2 ++ (t2 ++ rest))))) =
      some (t1, w1 ++ ('-' :: '-' :: '>' :: (w2 ++ (t2 ++ rest)))) :=
    matchTimestamp_here ht1
  have hdw2 : (w1 ++ ('-' :: '-' :: '>' ::
      (w2 ++ (t2 ++ rest)))).dropWhile isPySpace =
      '-' :: '-' :: '>' :: (w2 ++ (t2 ++ rest)) := by
    rw [dropWhile_sat_append hw1, dropWhile_head_neg _ (by decide)]
  have hm2 : matchArrow ('-' :: '-' :: '>' :: (w2 ++ (t2 ++ rest))) =
      some (w2 ++ (t2 ++ rest)) := matchArrow_arrow _
  have hdw3 : (w2 ++ (t2 ++ rest)).dropWhile isPySpace = t2 ++ rest := by
    rw [dropWhile_sat_append hw2, hsh2, List.cons_append,
      dropWhile_head_neg _ (digit_not_pySpace hd2), ← List.cons_append, ← hsh2]
  have hm3 : matchTimestamp (t2 ++ rest) = some (t2, rest) :=
    matchTimestamp_here ht2
  have hrestWF : lineWF rest := by
    have hre : ws ++ (t1 ++ (w1 ++ ('-' :: '-' :: '>' ::
        (w2 ++ (t2 ++ rest))))) =
        (ws ++ (t1 ++ (w1 ++ ('-' :: '-' :: '>' :: (w2 ++ t2))))) ++ rest := by
      simp [List.append_assoc]
    rw [hre] at hWF
    exact lineWF_append_right hWF
  have hguard := nl_run_of_lineWF hrestWF
  simp only [matchTimeRe, hdw, hm1, hdw2, hm2, hdw3, hm3, htw]
  rw [if_pos hguard]

/-! ## Captured timestamps always parse -/

theorem parse_ts_ok {t : List Char}
    (ht : isLongTs t = true ∨ isShortTs t = true) :
    ∃ v : Int, parse_hhmmss_mmm t = .ok v := by
  rcases ht with h | h
  · obtain ⟨a, b, c, d, e, f, g, h1, i1, ha, hb, hc, hd, he, hf, hg, hh, hi,
      hsh⟩ := isLongTs_elim h
    subst hsh
    have hp := parse_three_fields [a, b] [c, d] [e, f] [g, h1, i1]
      (by simp) (by simp) (by simp) (by simp)
      (by simp [ha, hb]) (by simp [hc, hd]) (by simp [he, hf])
      (by simp [hg, hh, hi])
    rw [show [a, b] ++ ':' :: ([c, d] ++ ':' :: ([e, f] ++ '.' :: [g, h1, i1]))
      = [a, b, ':', c, d, ':', e, f, '.', g, h1, i1] from rfl] at hp
    exact ⟨_, hp⟩
  · obtain ⟨a, b, c, d, e, f, g, ha, hb, hc, hd, he, hf, hg, hsh⟩ :=
      isShortTs_elim h
    subst hsh
    have hp := parse_two_fields [a, b] [c, d] [e, f, g]
      (by simp) (by simp) (by simp)
      (by simp [ha, hb]) (by simp [hc, hd]) (by simp [he, hf, hg])
    rw [show [a, b] ++ ':' :: ([c, d] ++ '.' :: [e, f, g])
      = [a, b, ':', c, d, '.', e, f, g] from rfl] at hp
    exact ⟨_, hp⟩

/-! ## Evaluating `shift_line` -/

theorem shift_line_eval {line ws s e rest : List Char} {ds de : Int}
    (hm : matchTimeRe line = some (ws, s, e, rest))
    (hs : parse_hhmmss_mmm s = .ok ds) (he : parse_hhmmss_mmm e = .ok de)
    (shift : Int) :
    shift_line line shift = some (ws ++
      format_hhmmss_mmm (clampNonneg (ds + shift)) ++
      [' ', '-', '-', '>', ' '] ++
      format_hhmmss_mmm (clampNonneg (de + shift)) ++ rest ++ ['\n']) := by
  simp only [shift_line, hm, hs, he]

theorem clampNonneg_mono {x y : Int} (h : x ≤ y) :
    clampNonneg x ≤ clampNonneg y := by
  unfold clampNonneg
  split <;> split <;> omega

/-! ## The last character of a formatted duration -/

theorem getLast_digit_of_all {l : List Char} (h0 : l ≠ [])
    (h : l.all isAsciiDigit = true) :
    ∃ c, l.getLast? = some c ∧ isAsciiDigit c = true :=
  ⟨l.getLast h0, List.getLast?_eq_getLast l h0,
    List.all_eq_true.mp h _ (List.getLast_mem h0)⟩

theorem getLast?_cons_ne_nil {x : Char} {R : List Char} (h : R ≠ []) :
    (x :: R).getLast? = R.getLast? := by
  rw [show x :: R = [x] ++ R from rfl]
  exact List.getLast?_append_of_ne_nil _ h

theorem format_getLast (d : Int) :
    ∃ c, (format_hhmmss_mmm d).getLast? = some c ∧ isAsciiDigit c = true := by
  have hp3ne : padZeros 3
      (natToStr ((if d < 0 then 0 else d).toNat % 1000)) ≠ [] :=
    padZeros_ne_nil 3 (natToStr_ne_nil _)
  obtain ⟨c, hc1, hc2⟩ := getLast_digit_of_all hp3ne
    (padZeros_all_digits 3 (natToStr_all_digits _))
  refine ⟨c, ?_, hc2⟩
  rw [format_shape]
  have hne1 : padZeros 2
      (natToStr ((if d < 0 then 0 else d).toNat / 1000 % 60)) ++ '.' ::
        padZeros 3 (natToStr ((if d < 0 then 0 else d).toNat % 1000)) ≠ [] := by
    intro hcon
    exact absurd ((List.append_eq_nil.mp hcon).2) (by simp)
  have hne2 : padZeros 2
      (natToStr ((if d < 0 then 0 else d).toNat / 1000 / 60 % 60)) ++ ':' ::
        (padZeros 2 (natToStr ((if d < 0 then 0 else d).toNat / 1000 % 60)) ++
          '.' :: padZeros 3
            (natToStr ((if d < 0 then 0 else d).toNat % 1000))) ≠ [] := by
    intro hcon
    exact absurd ((List.append_eq_nil.mp hcon).2) (by simp)
  rw [List.getLast?_append_of_ne_nil _ (by simp : (':' :: _) ≠ []),
    getLast?_cons_ne_nil hne2,
    List.getLast?_append_of_ne_nil _ (by simp : (':' :: _) ≠ []),
    getLast?_cons_ne_nil hne1,
    List.getLast?_append_of_ne_nil _ (by simp : (('.' : Char) :: _) ≠ []),
    getLast?_cons_ne_nil hp3ne]
  exact hc1

/-! ## The spec wording of a timestamp agrees with the compiled pattern -/

theorem specTimestamp_iff {t : List Char} :
    specTimestamp t ↔ (isLongTs t = true ∨ isShortTs t = true) := by
  constructor
  · rintro (⟨h1, h2, m1, m2, s1, s2, f1, f2, f3, hall, hsh⟩ |
      ⟨m1, m2, s1, s2, f1, f2, f3, hall, hsh⟩)
    · subst hsh
      simp only [List.all_cons, List.all_nil, Bool.and_eq_true, and_assoc] at hall
      obtain ⟨d1, d2, d3, d4, d5, d6, d7, d8, d9, -⟩ := hall
      exact Or.inl (isLongTs_intro d1 d2 d3 d4 d5 d6 d7 d8 d9)
    · subst hsh
      simp only [List.all_cons, List.all_nil, Bool.and_eq_true, and_assoc] at hall
      obtain ⟨d1, d2, d3, d4, d5, d6, d7, -⟩ := hall
      exact Or.inr (isShortTs_intro d1 d2 d3 d4 d5 d6 d7)
  · rintro (h | h)
    · obtain ⟨a, b, c, d, e, f, g, h1, i1, ha, hb, hc, hd, he, hf, hg, hh, hi,
        hsh⟩ := isLongTs_elim h
      exact Or.inl ⟨a, b, c, d, e, f, g, h1, i1,
        by simp [ha, hb, hc, hd, he, hf, hg, hh, hi], hsh⟩
    · obtain ⟨a, b, c, d, e, f, g, ha, hb, hc, hd, he, hf, hg, hsh⟩ :=
        isShortTs_elim h
      exact Or.inr ⟨a, b, c, d, e, f, g,
        by simp [ha, hb, hc, hd, he, hf, hg], hsh⟩

theorem matchTimeRe_isSome_iff {line : List Char} (hWF : lineWF line) :
    (matchTimeRe line).isSome = true ↔ timingLineDecomp line := by
  constructor
  · intro h
    rcases hsome : matchTimeRe line with _ | ⟨ws, s, e, rest⟩
    · rw [hsome] at h
      exact Bool.noConfusion h
    obtain ⟨w1, w2, tail, hline, hws, hw1, hw2, hts1, hts2, htail, hnl⟩ :=
      matchTimeRe_decomp hsome
    refine ⟨ws, s, w1, w2, e, rest ++ tail, ?_, ?_, ?_, ?_, ?_, ?_⟩
    · rw [hline]
      simp [List.append_assoc]
    · exact List.all_eq_true.mpr hws
    · exact List.all_eq_true.mpr hw1
    · exact List.all_eq_true.mpr hw2
    · exact specTimestamp_iff.mpr hts1
    · exact specTimestamp_iff.mpr hts2
  · rintro ⟨ws, t1, w1, w2, t2, rest, hline, hws, hw1, hw2, ht1, ht2⟩
    have hre : ws ++ t1 ++ w1 ++ ['-', '-', '>'] ++ w2 ++ t2 ++ rest =
        ws ++ (t1 ++ (w1 ++ ('-' :: '-' :: '>' :: (w2 ++ (t2 ++ rest))))) := by
      simp [List.append_assoc]
    rw [hre] at hline
    subst hline
    rw [matchTimeRe_of_decomp (List.all_eq_true.mp hws)
      (List.all_eq_true.mp hw1) (List.all_eq_true.mp hw2)
      (specTimestamp_iff.mp ht1) (specTimestamp_iff.mp ht2) hWF]
    rfl

/-! ## Totality of `shift_line` -/

theorem shift_line_total (line : List Char) (shift : Int) :
    (shift_line line shift).isSome = true := by
  rcases hm : matchTimeRe line with _ | ⟨ws, s, e, rest⟩
  · simp [shift_line, hm]
  · obtain ⟨w1, w2, tail, hline, hws, hw1, hw2, hts1, hts2, htail, hnl⟩ :=
      matchTimeRe_decomp hm
    obtain ⟨ds, hds⟩ := parse_ts_ok hts1
    obtain ⟨de, hde⟩ := parse_ts_ok hts2
    rw [shift_line_eval hm hds hde shift]
    rfl

/-! ## Success and failure structure of the parser -/

theorem parse_error_or_ok (s : List Char) :
    (∃ v, parse_hhmmss_mmm s = .ok v) ∨
      parse_hhmmss_mmm s = .error (parseErrMsg s) := by
  unfold parse_hhmmss_mmm
  repeat' split
  all_goals first | (left; exact ⟨_, rfl⟩) | (right; rfl)

theorem parse_ok_structure {s : List Char} {v : Int}
    (hv : parse_hhmmss_mmm s = .ok v) : parseOkSpec s := by
  unfold parse_hhmmss_mmm at hv
  split at hv
  case _ hms ms hsp =>
    split at hv
    case _ f1 f2 f3 hsp2 =>
      split at hv
      case _ hh mm ss millis hI1 hI2 hI3 hIm =>
        exact ⟨hms, ms, hsp, by simp [hIm], Or.inl ⟨f1, f2, f3, hsp2,
          by simp [hI1], by simp [hI2], by simp [hI3]⟩⟩
      case _ => exact Except.noConfusion hv
    case _ f2 f3 hsp2 =>
      split at hv
      case _ mm ss millis hI2 hI3 hIm =>
        exact ⟨hms, ms, hsp, by simp [hIm], Or.inr ⟨f2, f3, hsp2,
          by simp [hI2], by simp [hI3]⟩⟩
      case _ => exact Except.noConfusion hv
    case _ => exact Except.noConfusion hv
  case _ => exact Except.noConfusion hv

theorem parse_ok_of_spec {s : List Char} (h : parseOkSpec s) :
    ∃ v, parse_hhmmss_mmm s = .ok v := by
  obtain ⟨hms, ms, hsp, hmsome, hrest⟩ := h
  obtain ⟨millis, hIm⟩ := Option.isSome_iff_exists.mp hmsome
  rcases hrest with ⟨f1, f2, f3, hsp2, h1, h2, h3⟩ | ⟨f2, f3, hsp2, h2, h3⟩
  · obtain ⟨a, hI1⟩ := Option.isSome_iff_exists.mp h1
    obtain ⟨b, hI2⟩ := Option.isSome_iff_exists.mp h2
    obtain ⟨c, hI3⟩ := Option.isSome_iff_exists.mp h3
    exact ⟨_, parse_eval3 hsp hsp2 hI1 hI2 hI3 hIm⟩
  · obtain ⟨b, hI2⟩ := Option.isSome_iff_exists.mp h2
    obtain ⟨c, hI3⟩ := Option.isSome_iff_exists.mp h3
    exact ⟨_, parse_eval2 hsp hsp2 hI2 hI3 hIm⟩

/-! ## Claim theorems -/

/-- Claim C1: for every input line that matches the Timing Line pattern
and every shift, `shift_line` returns the original leading whitespace,
the formatted shifted-and-clamped start, a single space, the literal
arrow, a single space, the formatted shifted-and-clamped end, the
original rest fragment byte for byte, and a newline terminator; each
shifted timestamp is clamped to zero when the sum is negative, and the
arrow spacing is always normalized to single spaces. -/
theorem c1_shift_line_reconstruction (line ws s e rest : List Char)
    (shift ds de : Int) (hm : matchTimeRe line = some (ws, s, e, rest))
    (hs : parse_hhmmss_mmm s = .ok ds) (he : parse_hhmmss_mmm e = .ok de) :
    shift_line line shift = some (ws ++
      format_hhmmss_mmm (if ds + shift < 0 then 0 else ds + shift) ++
      [' ', '-', '-', '>', ' '] ++
      format_hhmmss_mmm (if de + shift < 0 then 0 else de + shift) ++
      rest ++ ['\n']) :=
  shift_line_eval hm hs he shift

/-- Witness for C1: the spec §8 example — shifting
`00:00:05.000 --> 00:00:07.500` by 22 minutes 58 seconds (1378000 ms)
produces `00:23:03.000 --> 00:23:05.500` with a trailing newline. -/
theorem c1_shift_line_reconstruction_witness :
    shift_line ("00:00:05.000 --> 00:00:07.500\n".toList) 1378000 =
      some ("00:23:03.000 --> 00:23:05.500\n".toList) :=
  c1_shift_line_reconstruction ("00:00:05.000 --> 00:00:07.500\n".toList)
    [] ("00:00:05.000".toList) ("00:00:07.500".toList) [] 1378000 5000 7500
    (by rfl) (by rfl) (by rfl)

/-- Claim C2: formatting a duration and re-parsing it reproduces the same
millisecond value, except that a negative duration is clamped to zero
before formatting; consequently `Format (Parse (Format d)) = Format d`
for every duration `d` (durations made of non-negative hours, minutes,
seconds and 0–999 milliseconds are the non-negative integers among
them). -/
theorem c2_format_parse_round_trip (d : Int) :
    parse_hhmmss_mmm (format_hhmmss_mmm d) = .ok (clampNonneg d) ∧
    (parse_hhmmss_mmm (format_hhmmss_mmm d)).map format_hhmmss_mmm =
      .ok (format_hhmmss_mmm d) := by
  refine ⟨parse_format d, ?_⟩
  rw [parse_format d]
  simp only [Except.map]
  rw [format_clamp d]

/-- Claim C3: a line that does not match the Timing Line pattern is
returned by `shift_line` completely unchanged, including its original
line terminator. -/
theorem c3_identity_on_nonmatching (line : List Char) (shift : Int)
    (h : matchTimeRe line = none) : shift_line line shift = some line := by
  simp [shift_line, h]

/-- Witness for C3: the header line `WEBVTT` does not match and passes
through unchanged. -/
theorem c3_identity_on_nonmatching_witness :
    shift_line ("WEBVTT\n".toList) 1378000 = some ("WEBVTT\n".toList) :=
  c3_identity_on_nonmatching ("WEBVTT\n".toList) 1378000 (by rfl)

/-- Claim C6: formatting any negative duration yields `00:00:00.000`. -/
theorem c6_format_negative_zero (d : Int) (h : d < 0) :
    format_hhmmss_mmm d = "00:00:00.000".toList := by
  rw [format_shape, if_pos h]
  rfl

/-- Witness for C6: formatting `-1` ms yields `00:00:00.000`. -/
theorem c6_format_negative_zero_witness :
    format_hhmmss_mmm (-1) = "00:00:00.000".toList :=
  c6_format_negative_zero (-1) (by decide)

/-- Claim C7: `shift_line` is total — for every line and shift it returns
a result — and the timestamps captured by a successful `TIME_RE` match
always parse, so the error branch of the Duration Codec parser is
unreachable from regex-matched captures. -/
theorem c7_no_parse_error_on_match (line : List Char) (shift : Int) :
    (shift_line line shift).isSome = true ∧
    (∀ ws s e rest, matchTimeRe line = some (ws, s, e, rest) →
      (∃ v, parse_hhmmss_mmm s = .ok v) ∧
      (∃ v, parse_hhmmss_mmm e = .ok v)) := by
  refine ⟨shift_line_total line shift, ?_⟩
  intro ws s e rest hm
  obtain ⟨w1, w2, tail, hline, hws, hw1, hw2, hts1, hts2, htail, hnl⟩ :=
    matchTimeRe_decomp hm
  exact ⟨parse_ts_ok hts1, parse_ts_ok hts2⟩

/-- Witness for C7: on the spec §8 example line, `shift_line` returns a
value and both captures parse. -/
theorem c7_no_parse_error_on_match_witness :
    (shift_line ("00:00:05.000 --> 00:00:07.500\n".toList) 5).isSome = true ∧
    ((∃ v, parse_hhmmss_mmm ("00:00:05.000".toList) = .ok v) ∧
     (∃ v, parse_hhmmss_mmm ("00:00:07.500".toList) = .ok v)) :=
  ⟨(c7_no_parse_error_on_match ("00:00:05.000 --> 00:00:07.500\n".toList) 5).1,
   (c7_no_parse_error_on_match ("00:00:05.000 --> 00:00:07.500\n".toList) 5).2
     [] ("00:00:05.000".toList) ("00:00:07.500".toList) [] (by rfl)⟩

/-- Claim C8: the fractional field of a timestamp is interpreted as the
literal millisecond count, without scaling by its digit width: parsing
`f1:f2:f3.frac` with a 1–3 digit fractional field adds exactly the
numeric value of `frac` in milliseconds. -/
theorem c8_fraction_literal_no_scaling (f1 f2 f3 frac : List Char)
    (h1 : f1 ≠ []) (h2 : f2 ≠ []) (h3 : f3 ≠ []) (h0 : frac ≠ [])
    (d1 : f1.all isAsciiDigit = true) (d2 : f2.all isAsciiDigit = true)
    (d3 : f3.all isAsciiDigit = true) (dfr : frac.all isAsciiDigit = true)
    (hlen : frac.length ≤ 3) :
    parse_hhmmss_mmm (f1 ++ ':' :: (f2 ++ ':' :: (f3 ++ '.' :: frac))) =
      .ok ((((digitsToNat f1 : Int) * 60 + (digitsToNat f2 : Int)) * 60 +
        (digitsToNat f3 : Int)) * 1000 + (digitsToNat frac : Int)) :=
  parse_three_fields f1 f2 f3 frac h1 h2 h3 h0 d1 d2 d3 dfr

/-- Witness for C8: `00:00:00.5` parses to 5 ms — not 500 ms — while
`00:00:00.500` parses to 500 ms. -/
theorem c8_fraction_literal_no_scaling_witness :
    parse_hhmmss_mmm ("00:00:00.5".toList) = .ok 5 ∧
    parse_hhmmss_mmm ("00:00:00.500".toList) = .ok 500 :=
  ⟨c8_fraction_literal_no_scaling ['0', '0'] ['0', '0'] ['0', '0'] ['5']
      (by simp) (by simp) (by simp) (by simp)
      (by rfl) (by rfl) (by rfl) (by rfl) (by decide),
   c8_fraction_literal_no_scaling ['0', '0'] ['0', '0'] ['0', '0']
      ['5', '0', '0'] (by simp) (by simp) (by simp) (by simp)
      (by rfl) (by rfl) (by rfl) (by rfl) (by decide)⟩

/-- Claim C9: shifting both timestamps of a matched Timing Line by the
same amount and clamping each at zero preserves the start-before-end
ordering of the parsed durations. -/
theorem c9_shift_preserves_order (line ws s e rest : List Char)
    (shift ds de : Int) (hm : matchTimeRe line = some (ws, s, e, rest))
    (hs : parse_hhmmss_mmm s = .ok ds) (he : parse_hhmmss_mmm e = .ok de)
    (hle : ds ≤ de) :
    clampNonneg (ds + shift) ≤ clampNonneg (de + shift) :=
  clampNonneg_mono (by omega)

/-- Witness for C9: on the spec §8 example with a backward shift of six
seconds, the clamped shifted start stays at or before the clamped
shifted end. -/
theorem c9_shift_preserves_order_witness :
    clampNonneg (5000 + (-6000)) ≤ clampNonneg (7500 + (-6000)) :=
  c9_shift_preserves_order ("00:00:05.000 --> 00:00:07.500\n".toList)
    [] ("00:00:05.000".toList) ("00:00:07.500".toList) [] (-6000) 5000 7500
    (by rfl) (by rfl) (by rfl) (by decide)

/-- Claim C4: a line is treated as a Timing Line precisely when it
consists of optional leading whitespace, a timestamp in long or short
form, optional whitespace, the literal arrow, optional whitespace, a
second timestamp, and arbitrary remaining text; matching is anchored at
the start, so an arrow substring elsewhere without a conforming prefix
does not match.  The hypothesis restricts lines to the `readlines`
discipline: a newline occurs at most as the final character. -/
theorem c4_timing_line_pattern (line : List Char) (hWF : lineWF line) :
    (matchTimeRe line).isSome = true ↔ timingLineDecomp line :=
  matchTimeRe_isSome_iff hWF

/-- Witness for C4: the pattern characterization instantiated on a
concrete cue timing line. -/
theorem c4_timing_line_pattern_witness :
    (matchTimeRe ("00:00:01.000 --> 00:00:02.000\n".toList)).isSome = true ↔
      timingLineDecomp ("00:00:01.000 --> 00:00:02.000\n".toList) :=
  c4_timing_line_pattern ("00:00:01.000 --> 00:00:02.000\n".toList)
    (by unfold lineWF; decide)

/-- Counterexample to claim C5 as stated: the claim says parsing fails
when some field is not a non-negative integer, but Python `int` accepts
signed fields, so `00:-5.000` — whose seconds field `-5` is a negative
integer — parses successfully to minus five seconds. -/
theorem c5_counterexample :
    parse_hhmmss_mmm ("00:-5.000".toList) = .ok (-5000) ∧
    pySplit ':' ("00:-5".toList) = [['0', '0'], ['-', '5']] ∧
    pyInt ['-', '5'] = some (-5) :=
  ⟨rfl, rfl, rfl⟩

/-- Claim C5 (amended): `parse_hhmmss_mmm` succeeds exactly when the
dot-split yields two pieces, the time-of-day piece has three or two
colon-fields, and every field — milliseconds included — is accepted by
Python `int` (which also accepts signed fields, so negative components
are possible); otherwise it fails with the `ValueError` message carrying
the offending text. -/
theorem c5_parse_failure_characterization (s : List Char) :
    ((∃ v, parse_hhmmss_mmm s = .ok v) ↔ parseOkSpec s) ∧
    ((∃ v, parse_hhmmss_mmm s = .ok v) ∨
      parse_hhmmss_mmm s = .error (parseErrMsg s)) :=
  ⟨⟨fun h => parse_ok_structure h.choose_spec, parse_ok_of_spec⟩,
    parse_error_or_ok s⟩

/-- Claim C10: for a matched Timing Line the `rest` capture never
contains the line terminator, and the `shift_line` output ends with
exactly one newline character — also when the input line had no trailing
newline at all. -/
theorem c10_output_single_newline (line ws s e rest : List Char)
    (shift : Int) (hm : matchTimeRe line = some (ws, s, e, rest)) :
    '\n' ∉ rest ∧
    (∀ out, shift_line line shift = some out →
      ∃ lead, out = lead ++ ['\n'] ∧ lead.getLast? ≠ some '\n') := by
  obtain ⟨w1, w2, tail, hline, hws, hw1, hw2, hts1, hts2, htail, hnl⟩ :=
    matchTimeRe_decomp hm
  refine ⟨hnl, ?_⟩
  intro out hout
  obtain ⟨ds, hds⟩ := parse_ts_ok hts1
  obtain ⟨de, hde⟩ := parse_ts_ok hts2
  rw [shift_line_eval hm hds hde shift] at hout
  simp only [Option.some.injEq] at hout
  subst hout
  refine ⟨(((ws ++ format_hhmmss_mmm (clampNonneg (ds + shift))) ++
    [' ', '-', '-', '>', ' ']) ++
    format_hhmmss_mmm (clampNonneg (de + shift))) ++ rest, ?_, ?_⟩
  · simp [List.append_assoc]
  · by_cases hre : rest = []
    · subst hre
      obtain ⟨c, hc1, hc2⟩ := format_getLast (clampNonneg (de + shift))
      have hF2ne : format_hhmmss_mmm (clampNonneg (de + shift)) ≠ [] := by
        intro hcon
        rw [hcon] at hc1
        exact Option.noConfusion hc1
      rw [List.append_nil, List.getLast?_append_of_ne_nil _ hF2ne, hc1]
      intro hcon
      simp only [Option.some.injEq] at hcon
      subst hcon
      exact absurd hc2 (by decide)
    · rw [List.getLast?_append_of_ne_nil _ hre]
      intro hcon
      have hmem : '\n' ∈ rest := by
        obtain ⟨hne, heq⟩ :=
          List.mem_getLast?_eq_getLast (Option.mem_def.mpr hcon)
        rw [heq]
        exact List.getLast_mem hne
      exact hnl hmem

/-- Witness for C10: a final line without a trailing newline still
produces an output ending in exactly one newline. -/
theorem c10_output_single_newline_witness :
    ('\n' ∉ ([] : List Char)) ∧
    ∃ lead, ("00:00:01.000 --> 00:00:02.000\n".toList) = lead ++ ['\n'] ∧
      lead.getLast? ≠ some '\n' :=
  ⟨(c10_output_single_newline ("00:00:01.000 --> 00:00:02.000".toList)
      [] ("00:00:01.000".toList) ("00:00:02.000".toList) [] 0 (by rfl)).1,
   (c10_output_single_newline ("00:00:01.000 --> 00:00:02.000".toList)
      [] ("00:00:01.000".toList) ("00:00:02.000".toList) [] 0 (by rfl)).2
     ("00:00:01.000 --> 00:00:02.000\n".toList) (by rfl)⟩
